import Mathlib

/-!
Verification development for the Substrait interchange bridge
(`src/substrait.rs`): carriers (`PyPlan`, `PyExpr`), the serializer
(`PySubstraitSerializer`), the producer (`PySubstraitProducer`) and the
consumer (`PySubstraitConsumer`).

The wrapper layer in `src/substrait.rs` is embedded directly.  The external
collaborators it delegates to (the `datafusion_substrait` producer, consumer
and serializer, and the prost byte codec) are not part of this repository;
following the specification they are modelled here as executable definitions,
each marked `Modelled from the spec:` in its doc comment, or abstracted as an
environment of external functions where a claim holds for every
implementation.
-/

set_option maxHeartbeats 1000000

namespace Substrait

/-- Byte sequences exchanged with the opaque codec (protobuf-style bytes). -/
abbrev Bytes := List Nat

/-- Modelled from the spec: field types of a schema (the spec only needs an
ordered field-name-to-type mapping): two representative engine types, plus a
wire-level type kind, identified by its protocol tag, that the engine does
not know — consuming a schema embedding such a type fails with an
unknown-type error. -/
inductive SType where
  | i64 : SType
  | utf8 : SType
  | other : Nat → SType
deriving DecidableEq, Repr

/-- An ordered mapping from field name to type (spec section 3, "Schema"). -/
abbrev Schema := List (String × SType)

/-- Modelled from the spec: the error taxonomy of section 7 — planning,
conversion (naming the offending construct), binding (naming the field),
resolution (naming the table), malformed field reference, unknown function,
unknown type, codec and I/O errors.  `DataFusionError`/`PyErr` of the
repository both map into this one type. -/
inductive DfErr where
  | planning : String → DfErr
  | conversion : String → DfErr
  | binding : String → DfErr
  | resolution : String → DfErr
  | malformedFieldRef : Nat → DfErr
  | unknownFunction : Nat → DfErr
  | unknownType : Nat → DfErr
  | codec : DfErr
  | ioErr : String → DfErr
  | encodeFail : DfErr
deriving DecidableEq, Repr

/-- Modelled from the spec: `crate::errors::py_datafusion_err` (repository code
outside `src/`) marshals a DataFusion error into a Python error; on the single
modelled error type it is the identity. -/
def py_datafusion_err (e : DfErr) : DfErr := e

/-- Modelled from the spec: `crate::utils::wait_for_future` (repository code
outside `src/`), the run-to-completion adapter of section 5: it blocks until
the suspending computation finishes and returns its final result unchanged. -/
def wait_for_future (x : Except DfErr α) : Except DfErr α := x

/-! ### The opaque byte codec, modelled as a protobuf-style varint encoding -/

/-- Modelled from the spec: base-128 varint encoding, structurally recursive
on a fuel bound (the value itself bounds the number of emitted digits,
so the fallback branch is unreachable for the fuel `encodeNat` passes). -/
def encodeNatAux : Nat → Nat → Bytes
  | 0, n => [n]
  | fuel + 1, n => if n < 128 then [n] else (n % 128 + 128) :: encodeNatAux fuel (n / 128)

/-- Modelled from the spec: base-128 varint encoding of a natural number,
the primitive of the opaque binary codec (spec section 6, "Byte format"). -/
def encodeNat (n : Nat) : Bytes := encodeNatAux n n

/-- Modelled from the spec: varint decoding; returns the value and the
remaining bytes. -/
def decodeNat : Bytes → Option (Nat × Bytes)
  | [] => none
  | b :: rest =>
    if b < 128 then some (b, rest)
    else
      match decodeNat rest with
      | some (m, r) => some (b - 128 + 128 * m, r)
      | none => none

theorem decodeNat_encodeNatAux (fuel : Nat) :
    ∀ n r, n ≤ fuel → decodeNat (encodeNatAux fuel n ++ r) = some (n, r) := by
  induction fuel with
  | zero =>
    intro n r h
    obtain rfl : n = 0 := by omega
    simp [encodeNatAux, decodeNat]
  | succ f ih =>
    intro n r h
    by_cases h128 : n < 128
    · simp [encodeNatAux, decodeNat, h128]
    · have hdle : n / 128 ≤ f := by
        have h1 : n / 128 < n := Nat.div_lt_self (by omega) (by omega)
        omega
      simp only [encodeNatAux, if_neg h128, List.cons_append, decodeNat,
        if_neg (by omega : ¬ n % 128 + 128 < 128), List.append_eq]
      rw [ih (n / 128) r hdle]
      have h2 : n % 128 + 128 * (n / 128) = n := Nat.mod_add_div n 128
      simp [h2]

theorem decodeNat_encodeNat (n : Nat) (r : Bytes) :
    decodeNat (encodeNat n ++ r) = some (n, r) :=
  decodeNat_encodeNatAux n n r (Nat.le_refl n)

theorem encodeNat_length_pos (n : Nat) : 0 < (encodeNat n).length := by
  cases n with
  | zero => simp [encodeNat, encodeNatAux]
  | succ m =>
    simp only [encodeNat, encodeNatAux]
    split <;> simp

/-! ### Generic length-prefixed list codec -/

/-- Modelled from the spec: concatenation of the encodings of the elements. -/
def encodeListWith (f : α → Bytes) : List α → Bytes
  | [] => []
  | a :: as => f a ++ encodeListWith f as

/-- Modelled from the spec: decode exactly `k` elements with decoder `d`. -/
def decodeCountWith (d : Bytes → Option (α × Bytes)) : Nat → Bytes → Option (List α × Bytes)
  | 0, b => some ([], b)
  | k + 1, b =>
    match d b with
    | some (a, r) =>
      match decodeCountWith d k r with
      | some (as, r2) => some (a :: as, r2)
      | none => none
    | none => none

theorem decodeCountWith_encodeListWith {α : Type} {d : Bytes → Option (α × Bytes)}
    {f : α → Bytes} (hd : ∀ a r, d (f a ++ r) = some (a, r)) :
    ∀ (l : List α) (r : Bytes),
      decodeCountWith d l.length (encodeListWith f l ++ r) = some (l, r) := by
  intro l
  induction l with
  | nil => intro r; simp [encodeListWith, decodeCountWith]
  | cons a as ihs =>
    intro r
    simp only [encodeListWith, List.length_cons, decodeCountWith, List.append_assoc]
    rw [hd a (encodeListWith f as ++ r)]
    dsimp only
    rw [ihs r]

/-! ### String, type, schema and index-list codecs -/

/-- Modelled from the spec: a character is encoded as the varint of its
code point. -/
def encodeChar (c : Char) : Bytes := encodeNat c.toNat

/-- Modelled from the spec: character decoding. -/
def decodeChar (b : Bytes) : Option (Char × Bytes) :=
  match decodeNat b with
  | some (n, r) => some (Char.ofNat n, r)
  | none => none

theorem decodeChar_encodeChar (c : Char) (r : Bytes) :
    decodeChar (encodeChar c ++ r) = some (c, r) := by
  simp [decodeChar, encodeChar, decodeNat_encodeNat, Char.ofNat_toNat]

/-- Modelled from the spec: a string is encoded as a length-prefixed sequence
of its characters. -/
def encodeString (s : String) : Bytes :=
  encodeNat s.data.length ++ encodeListWith encodeChar s.data

/-- Modelled from the spec: string decoding. -/
def decodeString (b : Bytes) : Option (String × Bytes) :=
  match decodeNat b with
  | some (k, r) =>
    match decodeCountWith decodeChar k r with
    | some (cs, r2) => some (String.mk cs, r2)
    | none => none
  | none => none

theorem decodeString_encodeString (s : String) (r : Bytes) :
    decodeString (encodeString s ++ r) = some (s, r) := by
  simp only [decodeString, encodeString, List.append_assoc, decodeNat_encodeNat]
  rw [decodeCountWith_encodeListWith decodeChar_encodeChar s.data r]

/-- Modelled from the spec: type tag encoding. -/
def encodeSType : SType → Bytes
  | .i64 => [0]
  | .utf8 => [1]
  | .other k => 2 :: encodeNat k

/-- Modelled from the spec: type tag decoding. -/
def decodeSType : Bytes → Option (SType × Bytes)
  | 0 :: r => some (.i64, r)
  | 1 :: r => some (.utf8, r)
  | 2 :: r =>
    match decodeNat r with
    | some (k, r2) => some (.other k, r2)
    | none => none
  | _ => none

theorem decodeSType_encodeSType (t : SType) (r : Bytes) :
    decodeSType (encodeSType t ++ r) = some (t, r) := by
  cases t with
  | i64 => rfl
  | utf8 => rfl
  | other k => simp [encodeSType, decodeSType, decodeNat_encodeNat]

/-- Modelled from the spec: a schema field is its name followed by its type. -/
def encodeField (x : String × SType) : Bytes := encodeString x.1 ++ encodeSType x.2

/-- Modelled from the spec: schema field decoding. -/
def decodeField (b : Bytes) : Option ((String × SType) × Bytes) :=
  match decodeString b with
  | some (n, r) =>
    match decodeSType r with
    | some (t, r2) => some ((n, t), r2)
    | none => none
  | none => none

theorem decodeField_encodeField (x : String × SType) (r : Bytes) :
    decodeField (encodeField x ++ r) = some (x, r) := by
  simp only [decodeField, encodeField, List.append_assoc, decodeString_encodeString,
    decodeSType_encodeSType]

/-- Modelled from the spec: a schema is a length-prefixed field list. -/
def encodeSchema (s : Schema) : Bytes :=
  encodeNat s.length ++ encodeListWith encodeField s

/-- Modelled from the spec: schema decoding. -/
def decodeSchema (b : Bytes) : Option (Schema × Bytes) :=
  match decodeNat b with
  | some (k, r) =>
    match decodeCountWith decodeField k r with
    | some (fs, r2) => some (fs, r2)
    | none => none
  | none => none

theorem decodeSchema_encodeSchema (s : Schema) (r : Bytes) :
    decodeSchema (encodeSchema s ++ r) = some (s, r) := by
  simp only [decodeSchema, encodeSchema, List.append_assoc, decodeNat_encodeNat]
  rw [decodeCountWith_encodeListWith decodeField_encodeField s r]

/-- Modelled from the spec: a length-prefixed list of field ordinals. -/
def encodeNatList (l : List Nat) : Bytes :=
  encodeNat l.length ++ encodeListWith encodeNat l

/-- Modelled from the spec: field-ordinal list decoding. -/
def decodeNatList (b : Bytes) : Option (List Nat × Bytes) :=
  match decodeNat b with
  | some (k, r) =>
    match decodeCountWith decodeNat k r with
    | some (l, r2) => some (l, r2)
    | none => none
  | none => none

theorem decodeNatList_encodeNatList (l : List Nat) (r : Bytes) :
    decodeNatList (encodeNatList l ++ r) = some (l, r) := by
  simp only [decodeNatList, encodeNatList, List.append_assoc, decodeNat_encodeNat]
  rw [decodeCountWith_encodeListWith decodeNat_encodeNat l r]

/-! ### Data model: internal and interchange expressions and plans -/

/-- Modelled from the spec: the host engine's scalar-expression node
(`datafusion_expr::Expr`, an external opaque type): a column reference by
name, an integer literal, or a binary addition. -/
inductive DfExpr where
  | column : String → DfExpr
  | lit : Int → DfExpr
  | add : DfExpr → DfExpr → DfExpr
deriving DecidableEq, Repr

/-- Modelled from the spec: an interchange (Substrait) expression: a field
reference by ordinal into the bound schema, a literal, or a scalar-function
application identified by a function anchor. -/
inductive SubExpr where
  | fieldRef : Nat → SubExpr
  | literal : Int → SubExpr
  | scalarFn : Nat → SubExpr → SubExpr → SubExpr
deriving DecidableEq, Repr

/-- Modelled from the spec: the host engine's logical plan tree
(`datafusion_expr::LogicalPlan`, an external opaque type): a table scan, a
projection of named columns, or a filter with a predicate expression. -/
inductive LogicalPlan where
  | tableScan : String → LogicalPlan
  | projection : List String → LogicalPlan → LogicalPlan
  | filter : DfExpr → LogicalPlan → LogicalPlan
deriving DecidableEq, Repr

/-- Modelled from the spec: an interchange (Substrait) relational tree: a
read relation carrying the table name and its base schema, a projection by
field ordinals, or a filter with an interchange condition. -/
inductive Rel where
  | read : String → Schema → Rel
  | project : List Nat → Rel → Rel
  | filter : SubExpr → Rel → Rel
deriving DecidableEq, Repr

/-- The decoded interchange plan message (`substrait::proto::Plan`): an
immutable tree value wrapping one relational tree. -/
structure Plan where
  rel : Rel
deriving DecidableEq, Repr

/-- The decoded interchange expression message
(`substrait::proto::ExtendedExpression`): one expression tagged with a name,
together with the base schema it was derived against. -/
structure ExtendedExpression where
  label : String
  baseSchema : Schema
  expr : SubExpr
deriving DecidableEq, Repr

/-- The Plan carrier of `src/substrait.rs` (`PyPlan`): wraps exactly one
decoded interchange plan. -/
structure PyPlan where
  plan : Plan
deriving DecidableEq, Repr

/-- The Expression carrier of `src/substrait.rs` (`PyExpr`): wraps exactly
one decoded interchange expression. -/
structure PyExpr where
  expr : ExtendedExpression
deriving DecidableEq, Repr

/-- Modelled from the spec: `crate::expr::PyExpr` (repository code outside
`src/`), the host-expression wrapper handed across the Python boundary. -/
structure PyDfExpr where
  expr : DfExpr
deriving DecidableEq, Repr

/-- Modelled from the spec: `crate::sql::logical::PyLogicalPlan` (repository
code outside `src/`), the host-plan wrapper handed across the Python
boundary. -/
structure PyLogicalPlan where
  plan : LogicalPlan
deriving DecidableEq, Repr

/-- Modelled from the spec: the session (`PySessionContext`, repository code
outside `src/`): the catalog context mapping registered table names to their
schemas. -/
structure SessionContext where
  tables : List (String × Schema)
deriving DecidableEq, Repr

/-! ### Integer zigzag codec and tree codecs -/

/-- Modelled from the spec: zigzag mapping of integers onto naturals, as the
protobuf-style codec encodes signed literals. -/
def zigzag : Int → Nat
  | .ofNat n => 2 * n
  | .negSucc n => 2 * n + 1

/-- Modelled from the spec: inverse zigzag mapping. -/
def unzigzag (n : Nat) : Int :=
  if n % 2 = 0 then .ofNat (n / 2) else .negSucc (n / 2)

theorem unzigzag_zigzag (v : Int) : unzigzag (zigzag v) = v := by
  cases v with
  | ofNat n =>
    simp [zigzag, unzigzag, Nat.mul_div_cancel_left, Nat.mul_mod_right]
  | negSucc n =>
    have h1 : (2 * n + 1) % 2 = 1 := by omega
    have h2 : (2 * n + 1) / 2 = n := by omega
    simp [zigzag, unzigzag, h1, h2]

/-- Modelled from the spec: interchange-expression encoding (tag byte per
node, then the payloads and children). -/
def encodeSub : SubExpr → Bytes
  | .fieldRef i => 0 :: encodeNat i
  | .literal v => 1 :: encodeNat (zigzag v)
  | .scalarFn fid a b => 2 :: (encodeNat fid ++ encodeSub a ++ encodeSub b)

/-- Node count of an interchange expression, a lower bound on its encoded
length used as decoding fuel. -/
def sizeSub : SubExpr → Nat
  | .fieldRef _ => 1
  | .literal _ => 1
  | .scalarFn _ a b => 1 + sizeSub a + sizeSub b

/-- Modelled from the spec: fuelled interchange-expression decoding. -/
def decodeSub : Nat → Bytes → Option (SubExpr × Bytes)
  | 0, _ => none
  | fuel + 1, b =>
    match b with
    | 0 :: r =>
      match decodeNat r with
      | some (i, r2) => some (.fieldRef i, r2)
      | none => none
    | 1 :: r =>
      match decodeNat r with
      | some (n, r2) => some (.literal (unzigzag n), r2)
      | none => none
    | 2 :: r =>
      match decodeNat r with
      | some (fid, r2) =>
        match decodeSub fuel r2 with
        | some (a, r3) =>
          match decodeSub fuel r3 with
          | some (bb, r4) => some (.scalarFn fid a bb, r4)
          | none => none
        | none => none
      | none => none
    | _ => none

theorem decodeSub_encodeSub (e : SubExpr) :
    ∀ (fuel : Nat) (r : Bytes), sizeSub e ≤ fuel →
      decodeSub fuel (encodeSub e ++ r) = some (e, r) := by
  induction e with
  | fieldRef i =>
    intro fuel r hf
    obtain ⟨f, rfl⟩ : ∃ f, fuel = f + 1 := ⟨fuel - 1, by simp [sizeSub] at hf; omega⟩
    simp [encodeSub, decodeSub, decodeNat_encodeNat]
  | literal v =>
    intro fuel r hf
    obtain ⟨f, rfl⟩ : ∃ f, fuel = f + 1 := ⟨fuel - 1, by simp [sizeSub] at hf; omega⟩
    simp [encodeSub, decodeSub, decodeNat_encodeNat, unzigzag_zigzag]
  | scalarFn fid a b iha ihb =>
    intro fuel r hf
    simp only [sizeSub] at hf
    obtain ⟨f, rfl⟩ : ∃ f, fuel = f + 1 := ⟨fuel - 1, by omega⟩
    simp only [encodeSub, List.cons_append, decodeSub, List.append_assoc,
      decodeNat_encodeNat]
    rw [iha f (encodeSub b ++ r) (by omega)]
    dsimp only
    rw [ihb f r (by omega)]

theorem sizeSub_le_length (e : SubExpr) : sizeSub e ≤ (encodeSub e).length := by
  induction e with
  | fieldRef i => simp [sizeSub, encodeSub]
  | literal v => simp [sizeSub, encodeSub]
  | scalarFn fid a b iha ihb =>
    simp only [sizeSub, encodeSub, List.length_cons, List.length_append]
    omega

/-- Modelled from the spec: interchange relational-tree encoding. -/
def encodeRel : Rel → Bytes
  | .read t s => 0 :: (encodeString t ++ encodeSchema s)
  | .project idxs i => 1 :: (encodeNatList idxs ++ encodeRel i)
  | .filter c i => 2 :: (encodeSub c ++ encodeRel i)

/-- Node count of an interchange relational tree, the decoding fuel bound. -/
def sizeRel : Rel → Nat
  | .read _ _ => 1
  | .project _ i => 1 + sizeRel i
  | .filter _ i => 1 + sizeRel i

/-- Modelled from the spec: fuelled interchange relational-tree decoding;
the embedded condition is decoded with the remaining length as fuel. -/
def decodeRel : Nat → Bytes → Option (Rel × Bytes)
  | 0, _ => none
  | fuel + 1, b =>
    match b with
    | 0 :: r =>
      match decodeString r with
      | some (t, r2) =>
        match decodeSchema r2 with
        | some (s, r3) => some (.read t s, r3)
        | none => none
      | none => none
    | 1 :: r =>
      match decodeNatList r with
      | some (idxs, r2) =>
        match decodeRel fuel r2 with
        | some (i, r3) => some (.project idxs i, r3)
        | none => none
      | none => none
    | 2 :: r =>
      match decodeSub r.length r with
      | some (c, r2) =>
        match decodeRel fuel r2 with
        | some (i, r3) => some (.filter c i, r3)
        | none => none
      | none => none
    | _ => none

theorem decodeRel_encodeRel (rel : Rel) :
    ∀ (fuel : Nat) (r : Bytes), sizeRel rel ≤ fuel →
      decodeRel fuel (encodeRel rel ++ r) = some (rel, r) := by
  induction rel with
  | read t s =>
    intro fuel r hf
    obtain ⟨f, rfl⟩ : ∃ f, fuel = f + 1 := ⟨fuel - 1, by simp [sizeRel] at hf; omega⟩
    simp [encodeRel, decodeRel, List.append_assoc, decodeString_encodeString,
      decodeSchema_encodeSchema]
  | project idxs i ih =>
    intro fuel r hf
    simp only [sizeRel] at hf
    obtain ⟨f, rfl⟩ : ∃ f, fuel = f + 1 := ⟨fuel - 1, by omega⟩
    simp [encodeRel, decodeRel, List.append_assoc, decodeNatList_encodeNatList,
      ih f r (by omega : sizeRel i ≤ f)]
  | filter c i ih =>
    intro fuel r hf
    simp only [sizeRel] at hf
    obtain ⟨f, rfl⟩ : ∃ f, fuel = f + 1 := ⟨fuel - 1, by omega⟩
    simp only [encodeRel, List.cons_append, decodeRel, List.append_assoc]
    have hsz : sizeSub c ≤ (encodeSub c ++ (encodeRel i ++ r)).length := by
      have := sizeSub_le_length c
      simp only [List.length_append]
      omega
    rw [decodeSub_encodeSub c _ _ hsz]
    simp [ih f r (by omega : sizeRel i ≤ f)]

/-- Modelled from the spec: the opaque codec's plan encoding
(prost `Message::encode` of `substrait::proto::Plan`). -/
def encodePlan (p : Plan) : Bytes := encodeRel p.rel

/-- Modelled from the spec: the opaque codec's plan decoding; fails with a
codec error when the bytes are not exactly one well-formed plan message. -/
def decodePlanBytes (b : Bytes) : Except DfErr Plan :=
  match decodeRel b.length b with
  | some (rel, []) => .ok { rel := rel }
  | _ => .error .codec

theorem sizeRel_le_length (rel : Rel) : sizeRel rel ≤ (encodeRel rel).length := by
  induction rel with
  | read t s => simp [sizeRel, encodeRel]
  | project idxs i ih =>
    simp only [sizeRel, encodeRel, List.length_cons, List.length_append]
    omega
  | filter c i ih =>
    simp only [sizeRel, encodeRel, List.length_cons, List.length_append]
    omega

theorem decodePlanBytes_encodePlan (p : Plan) :
    decodePlanBytes (encodePlan p) = .ok p := by
  have h : decodeRel (encodeRel p.rel).length (encodeRel p.rel) = some (p.rel, []) := by
    have h0 := decodeRel_encodeRel p.rel (encodeRel p.rel).length [] (sizeRel_le_length p.rel)
    rwa [List.append_nil] at h0
  simp [decodePlanBytes, encodePlan, h]

/-- Modelled from the spec: the opaque codec's extended-expression encoding. -/
def encodeExtExpr (e : ExtendedExpression) : Bytes :=
  encodeString e.label ++ encodeSchema e.baseSchema ++ encodeSub e.expr

/-- Modelled from the spec: the opaque codec's extended-expression decoding. -/
def decodeExtExprBytes (b : Bytes) : Except DfErr ExtendedExpression :=
  match decodeString b with
  | some (l, r) =>
    match decodeSchema r with
    | some (s, r2) =>
      match decodeSub r2.length r2 with
      | some (e, []) => .ok { label := l, baseSchema := s, expr := e }
      | _ => .error .codec
    | none => .error .codec
  | none => .error .codec

theorem decodeExtExprBytes_encodeExtExpr (e : ExtendedExpression) :
    decodeExtExprBytes (encodeExtExpr e) = .ok e := by
  have h : decodeSub (encodeSub e.expr).length (encodeSub e.expr) =
      some (e.expr, []) := by
    have h0 := decodeSub_encodeSub e.expr (encodeSub e.expr).length []
      (sizeSub_le_length e.expr)
    rwa [List.append_nil] at h0
  simp [decodeExtExprBytes, encodeExtExpr, List.append_assoc,
    decodeString_encodeString, decodeSchema_encodeSchema, h]

/-! ### Name resolution over schemas and catalogs -/

/-- Modelled from the spec: catalog lookup of a registered table's schema in
the session. -/
def lookupTable : List (String × Schema) → String → Option Schema
  | [], _ => none
  | (n, s) :: rest, t => if n = t then some s else lookupTable rest t

/-- Modelled from the spec: ordinal of the first schema field with the given
name (the binding step of expression production). -/
def fieldIndex (n : String) : Schema → Option Nat
  | [] => none
  | (m, _) :: rest =>
    if m = n then some 0
    else
      match fieldIndex n rest with
      | some i => some (i + 1)
      | none => none

theorem fieldIndex_getElem (n : String) (s : Schema) (i : Nat)
    (h : fieldIndex n s = some i) : ∃ t, s[i]? = some (n, t) := by
  induction s generalizing i with
  | nil => simp [fieldIndex] at h
  | cons f rest ih =>
    obtain ⟨m, ty⟩ := f
    by_cases hm : m = n
    · simp only [fieldIndex, if_pos hm] at h
      cases h
      subst hm
      exact ⟨ty, by simp⟩
    · simp only [fieldIndex, if_neg hm] at h
      match hrec : fieldIndex n rest with
      | some j =>
        rw [hrec] at h
        cases h
        obtain ⟨t, ht⟩ := ih j hrec
        exact ⟨t, by simpa using ht⟩
      | none => rw [hrec] at h; cases h

/-- Modelled from the spec: bind a list of projected column names to field
ordinals of the input schema; fails with a binding error naming the first
absent column. -/
def bindCols (s : Schema) : List String → Except DfErr (List Nat)
  | [] => .ok []
  | c :: rest =>
    match fieldIndex c s with
    | some i =>
      match bindCols s rest with
      | .ok is => .ok (i :: is)
      | .error e => .error e
    | none => .error (.binding c)

/-- Modelled from the spec: select the fields of a schema at the given
ordinals; fails with a malformed-field-reference error when an ordinal is out
of range. -/
def selectFields (s : Schema) : List Nat → Except DfErr Schema
  | [] => .ok []
  | i :: rest =>
    match s[i]? with
    | some f =>
      match selectFields s rest with
      | .ok fs => .ok (f :: fs)
      | .error e => .error e
    | none => .error (.malformedFieldRef i)

theorem selectFields_bindCols (s : Schema) (cols : List String) (idxs : List Nat)
    (h : bindCols s cols = .ok idxs) :
    ∃ fs : Schema, selectFields s idxs = .ok fs ∧ fs.map Prod.fst = cols := by
  induction cols generalizing idxs with
  | nil =>
    simp only [bindCols] at h
    cases h
    exact ⟨[], rfl, rfl⟩
  | cons c rest ih =>
    simp only [bindCols] at h
    match hidx : fieldIndex c s with
    | some i =>
      rw [hidx] at h
      match hrec : bindCols s rest with
      | .ok is =>
        rw [hrec] at h
        cases h
        obtain ⟨t, ht⟩ := fieldIndex_getElem c s i hidx
        obtain ⟨fs, hsel, hmap⟩ := ih is hrec
        refine ⟨(c, t) :: fs, ?_, ?_⟩
        · simp only [selectFields, ht, hsel]
        · simp [hmap]
      | .error e => rw [hrec] at h; cases h
    | none => rw [hidx] at h; cases h

/-! ### Producer and consumer for expressions -/

/-- Modelled from the spec: forward expression mapping of the external
producer — resolve each column name to a field ordinal of the bound schema
(binding error when absent), map literals through, and map addition to the
scalar function with anchor 0. -/
def toSubstraitSub (s : Schema) : DfExpr → Except DfErr SubExpr
  | .column n =>
    match fieldIndex n s with
    | some i => .ok (.fieldRef i)
    | none => .error (.binding n)
  | .lit v => .ok (.literal v)
  | .add a b =>
    match toSubstraitSub s a with
    | .ok sa =>
      match toSubstraitSub s b with
      | .ok sb => .ok (.scalarFn 0 sa sb)
      | .error e => .error e
    | .error e => .error e

/-- Modelled from the spec: reverse expression mapping of the external
consumer — resolve each field ordinal through the embedded schema (malformed
field reference when out of range), and resolve function anchors (unknown
function when the anchor is not the registered addition). -/
def fromSubstraitSub (s : Schema) : SubExpr → Except DfErr DfExpr
  | .fieldRef i =>
    match s[i]? with
    | some f => .ok (.column f.1)
    | none => .error (.malformedFieldRef i)
  | .literal v => .ok (.lit v)
  | .scalarFn fid a b =>
    if fid = 0 then
      match fromSubstraitSub s a with
      | .ok ea =>
        match fromSubstraitSub s b with
        | .ok eb => .ok (.add ea eb)
        | .error e => .error e
      | .error e => .error e
    else .error (.unknownFunction fid)

theorem fromSubstraitSub_toSubstraitSub (s : Schema) (e : DfExpr) (se : SubExpr)
    (h : toSubstraitSub s e = .ok se) : fromSubstraitSub s se = .ok e := by
  induction e generalizing se with
  | column n =>
    simp only [toSubstraitSub] at h
    match hidx : fieldIndex n s with
    | some i =>
      rw [hidx] at h
      cases h
      obtain ⟨t, ht⟩ := fieldIndex_getElem n s i hidx
      simp [fromSubstraitSub, ht]
    | none => rw [hidx] at h; cases h
  | lit v =>
    simp only [toSubstraitSub] at h
    cases h
    rfl
  | add a b iha ihb =>
    simp only [toSubstraitSub] at h
    match ha : toSubstraitSub s a with
    | .ok sa =>
      rw [ha] at h
      match hb : toSubstraitSub s b with
      | .ok sb =>
        rw [hb] at h
        cases h
        simp [fromSubstraitSub, iha sa ha, ihb sb hb]
      | .error e => rw [hb] at h; cases h
    | .error e => rw [ha] at h; cases h

/-! ### Producer and consumer for plans -/

/-- Modelled from the spec: output schema of an internal logical plan node,
resolved through the session catalog. -/
def planSchema (ctx : SessionContext) : LogicalPlan → Except DfErr Schema
  | .tableScan t =>
    match lookupTable ctx.tables t with
    | some s => .ok s
    | none => .error (.resolution t)
  | .projection cols i =>
    match planSchema ctx i with
    | .ok s =>
      match bindCols s cols with
      | .ok idxs => selectFields s idxs
      | .error e => .error e
    | .error e => .error e
  | .filter _ i => planSchema ctx i

/-- Modelled from the spec: forward plan mapping of the external producer
(`producer::to_substrait_plan` walks the internal plan and emits the
structurally equivalent interchange relational tree; a read relation embeds
the base schema, projections are bound to field ordinals, and predicates are
produced against the input schema; the first unsupported or unresolvable
construct aborts the conversion). -/
def toSubstraitRel (ctx : SessionContext) : LogicalPlan → Except DfErr Rel
  | .tableScan t =>
    match lookupTable ctx.tables t with
    | some s => .ok (.read t s)
    | none => .error (.resolution t)
  | .projection cols i =>
    match planSchema ctx i with
    | .ok s =>
      match bindCols s cols with
      | .ok idxs =>
        match toSubstraitRel ctx i with
        | .ok ri => .ok (.project idxs ri)
        | .error e => .error e
      | .error e => .error e
    | .error e => .error e
  | .filter p i =>
    match planSchema ctx i with
    | .ok s =>
      match toSubstraitSub s p with
      | .ok sp =>
        match toSubstraitRel ctx i with
        | .ok ri => .ok (.filter sp ri)
        | .error e => .error e
      | .error e => .error e
    | .error e => .error e

/-- Modelled from the spec: output schema of an interchange relational node,
computed from the schemas embedded in its read relations. -/
def relSchemaE : Rel → Except DfErr Schema
  | .read _ s => .ok s
  | .project idxs i =>
    match relSchemaE i with
    | .ok s => selectFields s idxs
    | .error e => .error e
  | .filter _ i => relSchemaE i

/-- Modelled from the spec: reverse plan mapping of the external consumer
(`consumer::from_substrait_plan` walks the interchange tree and reconstructs
the internal plan, resolving every referenced table through the session
catalog; an unresolved table aborts the whole conversion with a resolution
error naming it, so no partially built plan is returned). -/
def fromSubstraitRel (ctx : SessionContext) : Rel → Except DfErr LogicalPlan
  | .read t _ =>
    match lookupTable ctx.tables t with
    | some _ => .ok (.tableScan t)
    | none => .error (.resolution t)
  | .project idxs i =>
    match fromSubstraitRel ctx i with
    | .ok li =>
      match relSchemaE i with
      | .ok s =>
        match selectFields s idxs with
        | .ok fs => .ok (.projection (fs.map Prod.fst) li)
        | .error e => .error e
      | .error e => .error e
    | .error e => .error e
  | .filter c i =>
    match fromSubstraitRel ctx i with
    | .ok li =>
      match relSchemaE i with
      | .ok s =>
        match fromSubstraitSub s c with
        | .ok p => .ok (.filter p li)
        | .error e => .error e
      | .error e => .error e
    | .error e => .error e

theorem relSchemaE_toSubstraitRel (ctx : SessionContext) (lp : LogicalPlan) (r : Rel)
    (h : toSubstraitRel ctx lp = .ok r) : relSchemaE r = planSchema ctx lp := by
  induction lp generalizing r with
  | tableScan t =>
    simp only [toSubstraitRel] at h
    match hl : lookupTable ctx.tables t with
    | some s =>
      rw [hl] at h
      cases h
      simp [relSchemaE, planSchema, hl]
    | none => rw [hl] at h; cases h
  | projection cols i ih =>
    simp only [toSubstraitRel] at h
    match hs : planSchema ctx i with
    | .ok s =>
      simp only [hs] at h
      match hb : bindCols s cols with
      | .ok idxs =>
        simp only [hb] at h
        match hr : toSubstraitRel ctx i with
        | .ok ri =>
          simp only [hr] at h
          cases h
          simp [relSchemaE, planSchema, hs, hb, ih ri hr]
        | .error e => simp only [hr] at h; cases h
      | .error e => simp only [hb] at h; cases h
    | .error e => simp only [hs] at h; cases h
  | filter p i ih =>
    simp only [toSubstraitRel] at h
    match hs : planSchema ctx i with
    | .ok s =>
      simp only [hs] at h
      match hp : toSubstraitSub s p with
      | .ok sp =>
        simp only [hp] at h
        match hr : toSubstraitRel ctx i with
        | .ok ri =>
          simp only [hr] at h
          cases h
          simp [relSchemaE, planSchema, hs, ih ri hr]
        | .error e => simp only [hr] at h; cases h
      | .error e => simp only [hp] at h; cases h
    | .error e => simp only [hs] at h; cases h

theorem fromSubstraitRel_toSubstraitRel (ctx : SessionContext) (lp : LogicalPlan) (r : Rel)
    (h : toSubstraitRel ctx lp = .ok r) : fromSubstraitRel ctx r = .ok lp := by
  induction lp generalizing r with
  | tableScan t =>
    simp only [toSubstraitRel] at h
    match hl : lookupTable ctx.tables t with
    | some s =>
      rw [hl] at h
      cases h
      simp [fromSubstraitRel, hl]
    | none => rw [hl] at h; cases h
  | projection cols i ih =>
    simp only [toSubstraitRel] at h
    match hs : planSchema ctx i with
    | .ok s =>
      simp only [hs] at h
      match hb : bindCols s cols with
      | .ok idxs =>
        simp only [hb] at h
        match hr : toSubstraitRel ctx i with
        | .ok ri =>
          simp only [hr] at h
          cases h
          obtain ⟨fs, hsel, hmap⟩ := selectFields_bindCols s cols idxs hb
          simp [fromSubstraitRel, ih ri hr, relSchemaE_toSubstraitRel ctx i ri hr,
            hs, hsel, hmap]
        | .error e => simp only [hr] at h; cases h
      | .error e => simp only [hb] at h; cases h
    | .error e => simp only [hs] at h; cases h
  | filter p i ih =>
    simp only [toSubstraitRel] at h
    match hs : planSchema ctx i with
    | .ok s =>
      simp only [hs] at h
      match hp : toSubstraitSub s p with
      | .ok sp =>
        simp only [hp] at h
        match hr : toSubstraitRel ctx i with
        | .ok ri =>
          simp only [hr] at h
          cases h
          simp [fromSubstraitRel, ih ri hr, relSchemaE_toSubstraitRel ctx i ri hr,
            hs, fromSubstraitSub_toSubstraitSub s p sp hp]
        | .error e => simp only [hr] at h; cases h
      | .error e => simp only [hp] at h; cases h
    | .error e => simp only [hs] at h; cases h

/-! ### External serializer functions and the storage boundary -/

/-- The external environment abstracting `serializer::serialize_bytes` of the
`datafusion_substrait` crate (SQL planning, producer conversion and byte
encoding fused into one suspending operation).  Claims about the wrapper
orchestration are proved for every implementation of this interface. -/
structure SubstraitEnv where
  serializeBytesImpl : String → SessionContext → Except DfErr Bytes

/-- Modelled from the spec: the storage boundary — a path-to-bytes mapping
plus a writability predicate for surfacing I/O errors. -/
structure FileSystem where
  files : List (String × Bytes)
  writable : String → Bool

/-- Modelled from the spec: atomic write at the storage boundary; a rejected
write surfaces an I/O error and leaves the file system unchanged. -/
def fsWrite (fs : FileSystem) (path : String) (b : Bytes) : Except DfErr FileSystem :=
  if fs.writable path then .ok { fs with files := (path, b) :: fs.files }
  else .error (.ioErr path)

/-- Modelled from the spec: `serializer::serialize` of the external crate —
plan the SQL, convert and encode (the same stage `serialize_bytes` exposes),
and only once encoding has fully succeeded write the bytes to the
destination; any failure returns no carrier and leaves the file system
untouched. -/
def serializer.serialize (env : SubstraitEnv) (sql : String) (ctx : SessionContext)
    (path : String) (fs : FileSystem) : Except DfErr Unit × FileSystem :=
  match env.serializeBytesImpl sql ctx with
  | .ok bytes =>
    match fsWrite fs path bytes with
    | .ok fs2 => (.ok (), fs2)
    | .error e => (.error e, fs)
  | .error e => (.error e, fs)

/-- Modelled from the spec: `serializer::deserialize_bytes` of the external
crate decodes interchange-plan bytes through the opaque codec. -/
def serializer.deserialize_bytes (proto_bytes : Bytes) : Except DfErr Plan :=
  decodePlanBytes proto_bytes

/-- Modelled from the spec: `serializer::deserialize_exexpr_bytes` of the
external crate decodes interchange-expression bytes through the opaque
codec. -/
def serializer.deserialize_exexpr_bytes (proto_bytes : Bytes) : Except DfErr ExtendedExpression :=
  decodeExtExprBytes proto_bytes

/-- Modelled from the spec: `producer::to_substrait_extended_expression_single`
of the external crate wraps one internal expression, bound to the supplied
schema, into an interchange expression tagged with the given name; it fails
on a field reference absent from the schema. -/
def producer.to_substrait_extended_expression_single (e : DfExpr) (name : String)
    (schema : Schema) : Except DfErr ExtendedExpression :=
  match toSubstraitSub schema e with
  | .ok se => .ok { label := name, baseSchema := schema, expr := se }
  | .error err => .error err

/-- Modelled from the spec: `serializer::serialize_dfexpr_bytes` of the
external crate converts an already-built internal expression bound to a
schema into encoded interchange-expression bytes. -/
def serializer.serialize_dfexpr_bytes (e : DfExpr) (schema : Schema) : Except DfErr Bytes :=
  match producer.to_substrait_extended_expression_single e ("dfexpr") schema with
  | .ok ex => .ok (encodeExtExpr ex)
  | .error err => .error err

/-- Modelled from the spec: `producer::to_substrait_plan` of the external
crate walks the internal plan and emits the interchange plan message. -/
def producer.to_substrait_plan (lp : LogicalPlan) (ctx : SessionContext) : Except DfErr Plan :=
  match toSubstraitRel ctx lp with
  | .ok r => .ok { rel := r }
  | .error e => .error e

/-- Modelled from the spec: `consumer::from_substrait_plan` of the external
crate walks the interchange plan and reconstructs the internal plan,
resolving tables through the session. -/
def consumer.from_substrait_plan (ctx : SessionContext) (p : Plan) : Except DfErr LogicalPlan :=
  fromSubstraitRel ctx p.rel

/-- Modelled from the spec: resolution of one embedded wire-level field type
into an engine type; the consumer fails with an unknown-type error on a type
kind the engine does not know. -/
def resolveFieldType : SType → Except DfErr SType
  | .i64 => .ok .i64
  | .utf8 => .ok .utf8
  | .other k => .error (.unknownType k)

/-- Modelled from the spec: resolution of the embedded base schema into an
engine schema, field by field; the first unknown type aborts the whole
resolution. -/
def resolveSchema : Schema → Except DfErr Schema
  | [] => .ok []
  | (n, t) :: rest =>
    match resolveFieldType t with
    | .ok t2 =>
      match resolveSchema rest with
      | .ok s2 => .ok ((n, t2) :: s2)
      | .error e => .error e
    | .error e => .error e

/-- A schema embedding a type unknown to the engine never resolves: the
result is an unknown-type error (for the first such type encountered). -/
theorem resolveSchema_unknownType (s : Schema) (n : String) (k : Nat)
    (h : (n, SType.other k) ∈ s) :
    ∃ k2, resolveSchema s = .error (.unknownType k2) := by
  induction s with
  | nil => simp at h
  | cons f rest ih =>
    obtain ⟨m, t⟩ := f
    rcases List.mem_cons.mp h with heq | hmem
    · cases heq
      exact ⟨k, by simp [resolveSchema, resolveFieldType]⟩
    · match ht : resolveFieldType t with
      | .ok t2 =>
        obtain ⟨k2, hk2⟩ := ih hmem
        exact ⟨k2, by simp [resolveSchema, ht, hk2]⟩
      | .error e =>
        cases t with
        | i64 => simp [resolveFieldType] at ht
        | utf8 => simp [resolveFieldType] at ht
        | other k0 =>
          simp only [resolveFieldType] at ht
          cases ht
          exact ⟨k0, by simp [resolveSchema, resolveFieldType]⟩

/-- Modelled from the spec: `consumer::from_substrait_extended_expr_single`
of the external crate first resolves the embedded base schema (failing on a
type unknown to the engine), then reconstructs the internal expression
together with the resolved field-reference schema it was derived against. -/
def consumer.from_substrait_extended_expr_single (ex : ExtendedExpression) :
    Except DfErr (DfExpr × Schema) :=
  match resolveSchema ex.baseSchema with
  | .ok s =>
    match fromSubstraitSub s ex.expr with
    | .ok e => .ok (e, s)
    | .error err => .error err
  | .error err => .error err

/-! ### The wrapper layer of `src/substrait.rs` -/

/-- `PyPlan::encode` (src/substrait.rs lines 50-57): re-encode the wrapped
plan message through the opaque codec; an encoder error is marshalled to
`DataFusionError::EncodeError`.  The modelled codec, like prost encoding
into a growable buffer, always succeeds. -/
def PyPlan.encode (self : PyPlan) : Except DfErr Bytes :=
  .ok (encodePlan self.plan)

/-- `PySubstraitSerializer::serialize` (src/substrait.rs lines 81-85):
delegate to the external `serializer::serialize` through the
run-to-completion adapter, threading the storage state. -/
def PySubstraitSerializer.serialize (env : SubstraitEnv) (sql : String)
    (ctx : SessionContext) (path : String) (fs : FileSystem) :
    Except DfErr Unit × FileSystem :=
  match serializer.serialize env sql ctx path fs with
  | (res, fs2) => (wait_for_future res, fs2)

/-- `PySubstraitSerializer::serialize_bytes` (src/substrait.rs lines
99-103): delegate to the external `serializer::serialize_bytes` through the
run-to-completion adapter. -/
def PySubstraitSerializer.serialize_bytes (env : SubstraitEnv) (sql : String)
    (ctx : SessionContext) : Except DfErr Bytes :=
  wait_for_future (env.serializeBytesImpl sql ctx)

/-- `PySubstraitSerializer::deserialize_bytes` (src/substrait.rs lines
146-150): decode the given bytes into a Plan carrier. -/
def PySubstraitSerializer.deserialize_bytes (proto_bytes : Bytes) : Except DfErr PyPlan :=
  match wait_for_future (serializer.deserialize_bytes proto_bytes) with
  | .ok plan => .ok { plan := plan }
  | .error e => .error e

/-- `PySubstraitSerializer::serialize_to_plan` (src/substrait.rs lines
88-96): serialize to bytes, then decode those bytes into the returned Plan
carrier; a serialization error is marshalled through `py_datafusion_err`. -/
def PySubstraitSerializer.serialize_to_plan (env : SubstraitEnv) (sql : String)
    (ctx : SessionContext) : Except DfErr PyPlan :=
  match PySubstraitSerializer.serialize_bytes env sql ctx with
  | .ok proto_bytes => PySubstraitSerializer.deserialize_bytes proto_bytes
  | .error e => .error (py_datafusion_err e)

/-- `PySubstraitSerializer::serialize_dfexpr_bytes` (src/substrait.rs lines
124-136): marshal the schema, then delegate to the external
`serializer::serialize_dfexpr_bytes` through the run-to-completion
adapter. -/
def PySubstraitSerializer.serialize_dfexpr_bytes (expr : PyDfExpr) (schema : Schema) :
    Except DfErr Bytes :=
  wait_for_future (serializer.serialize_dfexpr_bytes expr.expr schema)

/-- `PySubstraitSerializer::deserialize_expr_bytes` (src/substrait.rs lines
153-157): decode the given bytes into an Expression carrier. -/
def PySubstraitSerializer.deserialize_expr_bytes (proto_bytes : Bytes) : Except DfErr PyExpr :=
  match wait_for_future (serializer.deserialize_exexpr_bytes proto_bytes) with
  | .ok expr => .ok { expr := expr }
  | .error e => .error e

/-- `PySubstraitProducer::to_substrait_plan` (src/substrait.rs lines
168-173): delegate to the external producer and wrap the result in a Plan
carrier; an error is marshalled through `py_datafusion_err`. -/
def PySubstraitProducer.to_substrait_plan (plan : PyLogicalPlan) (ctx : SessionContext) :
    Except DfErr PyPlan :=
  match producer.to_substrait_plan plan.plan ctx with
  | .ok p => .ok { plan := p }
  | .error e => .error (py_datafusion_err e)

/-- `PySubstraitProducer::to_substrait_expr` (src/substrait.rs lines
176-188): marshal the schema, then produce an interchange expression tagged
with the fixed label "datafusion_expression" and wrap it in an Expression
carrier. -/
def PySubstraitProducer.to_substrait_expr (expr : PyDfExpr) (schema : Schema) :
    Except DfErr PyExpr :=
  match producer.to_substrait_extended_expression_single expr.expr
      ("datafusion_expression") schema with
  | .ok exexpr => .ok { expr := exexpr }
  | .error e => .error e

/-- `PySubstraitConsumer::from_substrait_plan` (src/substrait.rs lines
199-207): delegate to the external consumer through the run-to-completion
adapter and wrap the reconstructed internal plan. -/
def PySubstraitConsumer.from_substrait_plan (ctx : SessionContext) (plan : PyPlan) :
    Except DfErr PyLogicalPlan :=
  match wait_for_future (consumer.from_substrait_plan ctx plan.plan) with
  | .ok logical_plan => .ok { plan := logical_plan }
  | .error e => .error e

/-- `PySubstraitConsumer::from_substrait_expr` (src/substrait.rs lines
211-217): delegate to the external consumer through the run-to-completion
adapter, keep only the expression component of the returned pair, and wrap
it. -/
def PySubstraitConsumer.from_substrait_expr (expr : PyExpr) : Except DfErr PyDfExpr :=
  match wait_for_future (consumer.from_substrait_extended_expr_single expr.expr) with
  | .ok pr => .ok { expr := pr.1 }
  | .error e => .error e

/-! ### Borrow-level state threading for the frame claims

The Rust methods receive the carriers by shared reference (`&self`,
`&plan.plan`, `&expr.expr`); a mutation through a reference would appear in
this embedding as a returned, updated carrier.  The state-threaded versions
below return, next to the result, the carrier (and session) as they stand
when the call returns, read off the source: no statement of any of the three
method bodies writes through the carrier reference. -/

/-- State-threaded `PyPlan::encode`: result plus the carrier after the call. -/
def PyPlan.encodeSt (self : PyPlan) : Except DfErr Bytes × PyPlan :=
  (PyPlan.encode self, self)

/-- State-threaded `PySubstraitConsumer::from_substrait_plan`: result plus
the session and the carrier after the call. -/
def PySubstraitConsumer.from_substrait_planSt (ctx : SessionContext) (plan : PyPlan) :
    Except DfErr PyLogicalPlan × SessionContext × PyPlan :=
  (PySubstraitConsumer.from_substrait_plan ctx plan, ctx, plan)

/-- State-threaded `PySubstraitConsumer::from_substrait_expr`: result plus
the carrier after the call. -/
def PySubstraitConsumer.from_substrait_exprSt (expr : PyExpr) :
    Except DfErr PyDfExpr × PyExpr :=
  (PySubstraitConsumer.from_substrait_expr expr, expr)

/-! ### Concrete test fixtures -/

/-- A concrete session with one registered table. -/
def demoCtx : SessionContext :=
  { tables := [("t", [("a", SType.i64), ("b", SType.i64)])] }

/-- A concrete interchange plan: a filtered, projected read of table `t`. -/
def demoPlan : Plan :=
  { rel := .filter (.scalarFn 0 (.fieldRef 0) (.literal 7))
      (.project [0, 1] (.read ("t") [("a", SType.i64), ("b", SType.i64)])) }

/-- The schema of the worked example of the spec: `{a: int, b: int}`. -/
def demoSchema : Schema := [("a", SType.i64), ("b", SType.i64)]

/-- The expression of the worked example of the spec: `a + b`. -/
def demoExpr : DfExpr := .add (.column ("a")) (.column ("b"))

/-- A concrete external environment whose serializer stage succeeds with the
encoding of `demoPlan`. -/
def demoEnv : SubstraitEnv :=
  { serializeBytesImpl := fun _ _ => .ok (encodePlan demoPlan) }

/-- A concrete external environment whose serializer stage fails with a
planning error. -/
def failEnv : SubstraitEnv :=
  { serializeBytesImpl := fun _ _ => .error (.planning ("malformed sql")) }

/-- A concrete file system with one writable destination. -/
def demoFs : FileSystem :=
  { files := [], writable := fun p => p = "/tmp/out.bin" }

/-! ### Field references of an expression and the base table of a plan -/

/-- The column names referenced by an internal expression. -/
def colRefs : DfExpr → List String
  | .column n => [n]
  | .lit _ => []
  | .add a b => colRefs a ++ colRefs b

theorem fieldIndex_eq_none_iff (n : String) (s : Schema) :
    fieldIndex n s = none ↔ n ∉ s.map Prod.fst := by
  induction s with
  | nil => simp [fieldIndex]
  | cons f rest ih =>
    obtain ⟨m, ty⟩ := f
    by_cases hm : m = n
    · subst hm
      simp [fieldIndex]
    · simp only [fieldIndex, if_neg hm, List.map_cons, List.mem_cons]
      have hiff : (match fieldIndex n rest with
          | some i => some (i + 1)
          | none => (none : Option Nat)) = none ↔ fieldIndex n rest = none := by
        cases fieldIndex n rest <;> simp
      rw [hiff, ih]
      constructor
      · intro h hc
        rcases hc with hc | hc
        · exact hm hc.symm
        · exact h hc
      · intro h hc
        exact h (Or.inr hc)

/-- The error of a failed expression production is always a binding error
naming a column absent from the schema. -/
theorem toSubstraitSub_error_shape (s : Schema) (e : DfExpr) (err : DfErr)
    (h : toSubstraitSub s e = .error err) :
    ∃ m, err = .binding m ∧ fieldIndex m s = none := by
  induction e generalizing err with
  | column n =>
    simp only [toSubstraitSub] at h
    match hidx : fieldIndex n s with
    | some i => simp only [hidx] at h; cases h
    | none =>
      simp only [hidx] at h
      cases h
      exact ⟨n, rfl, hidx⟩
  | lit v => simp only [toSubstraitSub] at h; cases h
  | add a b iha ihb =>
    simp only [toSubstraitSub] at h
    match ha : toSubstraitSub s a with
    | .ok sa =>
      simp only [ha] at h
      match hb : toSubstraitSub s b with
      | .ok sb => simp only [hb] at h; cases h
      | .error eb =>
        simp only [hb] at h
        cases h
        exact ihb err hb
    | .error ea =>
      simp only [ha] at h
      cases h
      exact iha err ha

/-- Producing an expression that references a column absent from the bound
schema fails. -/
theorem toSubstraitSub_isError_of_missing (s : Schema) (e : DfExpr) (n : String)
    (href : n ∈ colRefs e) (habs : fieldIndex n s = none) :
    ∃ err, toSubstraitSub s e = .error err := by
  induction e with
  | column c =>
    simp only [colRefs, List.mem_singleton] at href
    subst href
    simp [toSubstraitSub, habs]
  | lit v => simp [colRefs] at href
  | add a b iha ihb =>
    simp only [colRefs, List.mem_append] at href
    match ha : toSubstraitSub s a with
    | .error ea => exact ⟨ea, by simp [toSubstraitSub, ha]⟩
    | .ok sa =>
      rcases href with href | href
      · obtain ⟨err, herr⟩ := iha href
        rw [ha] at herr
        cases herr
      · obtain ⟨err, herr⟩ := ihb href
        exact ⟨err, by simp [toSubstraitSub, ha, herr]⟩

/-- The single table a (join-free) interchange relational tree reads. -/
def baseTable : Rel → String
  | .read t _ => t
  | .project _ i => baseTable i
  | .filter _ i => baseTable i

/-- Consuming a relational tree whose read table is not in the catalog
fails with a resolution error naming that table. -/
theorem fromSubstraitRel_missing_table (ctx : SessionContext) (r : Rel)
    (h : lookupTable ctx.tables (baseTable r) = none) :
    fromSubstraitRel ctx r = .error (.resolution (baseTable r)) := by
  induction r with
  | read t s =>
    simp only [baseTable] at h
    simp [fromSubstraitRel, h, baseTable]
  | project idxs i ih =>
    simp only [baseTable] at h ⊢
    simp [fromSubstraitRel, ih h]
  | filter c i ih =>
    simp only [baseTable] at h ⊢
    simp [fromSubstraitRel, ih h]

/-- A concrete internal plan over the demo session: project column `a` of
table `t`. -/
def demoLp : PyLogicalPlan :=
  { plan := .projection [("a")] (.tableScan ("t")) }

/-- The interchange plan the producer emits for `demoLp` under `demoCtx`. -/
def demoProducedPlan : PyPlan :=
  { plan := { rel := .project [0] (.read ("t") [("a", SType.i64), ("b", SType.i64)]) } }

/-- The interchange expression the producer emits for `demoExpr` bound to
`demoSchema`. -/
def demoProducedExt : ExtendedExpression :=
  { label := "datafusion_expression", baseSchema := demoSchema,
    expr := .scalarFn 0 (.fieldRef 0) (.fieldRef 1) }

/-! ### The claims -/

/-- C1: for every SQL string and session on which serialization succeeds,
`serialize_to_plan(sql, session)` returns exactly the Plan carrier obtained
by decoding `serialize_bytes(sql, session)` — the two operations yield equal
carriers, for every implementation of the external serializer stage. -/
theorem C1_serialize_to_plan_refines_bytes (env : SubstraitEnv) (sql : String)
    (ctx : SessionContext) (b : Bytes)
    (h : PySubstraitSerializer.serialize_bytes env sql ctx = .ok b) :
    PySubstraitSerializer.serialize_to_plan env sql ctx =
      PySubstraitSerializer.deserialize_bytes b := by
  simp [PySubstraitSerializer.serialize_to_plan, h]

/-- Witness for C1 at a concrete environment, SQL string and session. -/
theorem C1_serialize_to_plan_refines_bytes_witness :
    PySubstraitSerializer.serialize_bytes demoEnv ("SELECT a FROM t") demoCtx =
      .ok (encodePlan demoPlan) ∧
    PySubstraitSerializer.serialize_to_plan demoEnv ("SELECT a FROM t") demoCtx =
      PySubstraitSerializer.deserialize_bytes (encodePlan demoPlan) :=
  ⟨rfl, C1_serialize_to_plan_refines_bytes demoEnv ("SELECT a FROM t") demoCtx
    (encodePlan demoPlan) rfl⟩

/-- C2: encode (`PyPlan.encode`) and decode (`deserialize_bytes`) form a
lossless round trip: decoding the bytes produced for a well-formed plan `x`
yields the carrier of `x` again, and `encode` on that carrier reproduces
exactly those bytes (every byte sequence produced by `encode` is
`encodePlan x` for the wrapped `x`, so decode succeeds on it and re-encoding
reproduces it byte-for-byte). -/
theorem C2_encode_decode_round_trip (x : Plan) :
    PySubstraitSerializer.deserialize_bytes (encodePlan x) = .ok { plan := x } ∧
    PyPlan.encode { plan := x } = .ok (encodePlan x) := by
  constructor
  · simp [PySubstraitSerializer.deserialize_bytes, wait_for_future,
      serializer.deserialize_bytes, decodePlanBytes_encodePlan]
  · rfl

/-- C3: for every internal plan the producer can express and session that
resolves its references, consuming the produced interchange plan
reconstructs the original internal plan (the reconstruction is structurally
equal, hence has the same relations, projections and predicates). -/
theorem C3_producer_consumer_round_trip (plan : PyLogicalPlan) (ctx : SessionContext)
    (pp : PyPlan)
    (h : PySubstraitProducer.to_substrait_plan plan ctx = .ok pp) :
    PySubstraitConsumer.from_substrait_plan ctx pp = .ok plan := by
  simp only [PySubstraitProducer.to_substrait_plan, producer.to_substrait_plan] at h
  match hr : toSubstraitRel ctx plan.plan with
  | .ok r =>
    simp only [hr] at h
    cases h
    simp [PySubstraitConsumer.from_substrait_plan, consumer.from_substrait_plan,
      wait_for_future, fromSubstraitRel_toSubstraitRel ctx plan.plan r hr]
  | .error e => simp only [hr] at h; cases h

/-- Witness for C3 at a concrete plan and session. -/
theorem C3_producer_consumer_round_trip_witness :
    PySubstraitProducer.to_substrait_plan demoLp demoCtx = .ok demoProducedPlan ∧
    PySubstraitConsumer.from_substrait_plan demoCtx demoProducedPlan = .ok demoLp :=
  ⟨rfl, C3_producer_consumer_round_trip demoLp demoCtx demoProducedPlan rfl⟩

/-- C4: producing an interchange expression from an internal expression that
references a field absent from the supplied schema fails — both
`to_substrait_expr` and `serialize_dfexpr_bytes` return a binding error
naming a column absent from the schema, never a silent null value and never
a panic (the result is always a well-typed `Except` value). -/
theorem C4_missing_field_binding_error (expr : PyDfExpr) (schema : Schema) (n : String)
    (href : n ∈ colRefs expr.expr) (habs : n ∉ schema.map Prod.fst) :
    ∃ m, m ∉ schema.map Prod.fst ∧
      PySubstraitProducer.to_substrait_expr expr schema = .error (.binding m) ∧
      PySubstraitSerializer.serialize_dfexpr_bytes expr schema = .error (.binding m) := by
  obtain ⟨err, herr⟩ := toSubstraitSub_isError_of_missing schema expr.expr n href
    ((fieldIndex_eq_none_iff n schema).mpr habs)
  obtain ⟨m, rfl, hm⟩ := toSubstraitSub_error_shape schema expr.expr err herr
  refine ⟨m, (fieldIndex_eq_none_iff m schema).mp hm, ?_, ?_⟩
  · simp [PySubstraitProducer.to_substrait_expr,
      producer.to_substrait_extended_expression_single, herr]
  · simp [PySubstraitSerializer.serialize_dfexpr_bytes, wait_for_future,
      serializer.serialize_dfexpr_bytes,
      producer.to_substrait_extended_expression_single, herr]

/-- Witness for C4 at a concrete expression and schema. -/
theorem C4_missing_field_binding_error_witness :
    (("c") ∈ colRefs (DfExpr.add (.column ("a")) (.column ("c")))) ∧
    (("c") ∉ demoSchema.map Prod.fst) ∧
    (∃ m, m ∉ demoSchema.map Prod.fst ∧
      PySubstraitProducer.to_substrait_expr
          { expr := .add (.column ("a")) (.column ("c")) } demoSchema =
        .error (.binding m) ∧
      PySubstraitSerializer.serialize_dfexpr_bytes
          { expr := .add (.column ("a")) (.column ("c")) } demoSchema =
        .error (.binding m)) :=
  ⟨by decide, by decide,
    C4_missing_field_binding_error { expr := .add (.column ("a")) (.column ("c")) }
      demoSchema ("c") (by decide) (by decide)⟩

/-- C5: consuming an interchange plan whose read relation names a table
absent from the session catalog fails with a resolution error carrying that
table's name; the `Except` result carries no plan, so no partially
reconstructed internal plan is returned. -/
theorem C5_missing_table_resolution_error (ctx : SessionContext) (plan : PyPlan)
    (h : lookupTable ctx.tables (baseTable plan.plan.rel) = none) :
    PySubstraitConsumer.from_substrait_plan ctx plan =
      .error (.resolution (baseTable plan.plan.rel)) := by
  simp [PySubstraitConsumer.from_substrait_plan, consumer.from_substrait_plan,
    wait_for_future, fromSubstraitRel_missing_table ctx plan.plan.rel h]

/-- Witness for C5 at a concrete plan over an unregistered table. -/
theorem C5_missing_table_resolution_error_witness :
    lookupTable demoCtx.tables
        (baseTable (Rel.project [0] (.read ("u") [("a", SType.i64)]))) = none ∧
    PySubstraitConsumer.from_substrait_plan demoCtx
        { plan := { rel := .project [0] (.read ("u") [("a", SType.i64)]) } } =
      .error (.resolution (baseTable (Rel.project [0] (.read ("u") [("a", SType.i64)])))) :=
  ⟨by decide, C5_missing_table_resolution_error demoCtx
    { plan := { rel := .project [0] (.read ("u") [("a", SType.i64)]) } } (by decide)⟩

/-- C6 counterexample: `from_substrait_expr` does not return the resolved
field-reference schema together with the expression — two carriers whose
underlying consumer results carry different resolved schemas produce equal
wrapper outputs, so the schema is not part of what the method returns. -/
theorem C6_schema_not_returned_counterexample :
    PySubstraitConsumer.from_substrait_expr
        { expr := { label := "e", baseSchema := [(("a"), SType.i64)], expr := .literal 1 } } =
      PySubstraitConsumer.from_substrait_expr
        { expr := { label := "e", baseSchema := [(("b"), SType.utf8)], expr := .literal 1 } } ∧
    consumer.from_substrait_extended_expr_single
        { label := "e", baseSchema := [(("a"), SType.i64)], expr := .literal 1 } =
      .ok (.lit 1, [(("a"), SType.i64)]) ∧
    consumer.from_substrait_extended_expr_single
        { label := "e", baseSchema := [(("b"), SType.utf8)], expr := .literal 1 } =
      .ok (.lit 1, [(("b"), SType.utf8)]) := by
  refine ⟨rfl, rfl, rfl⟩

/-- C6 (amended): for every interchange expression carrier on which it
succeeds, `from_substrait_expr` returns only the reconstructed internal
expression — the resolved field-reference schema computed by the underlying
consumer is discarded by the wrapper — and it fails on unknown
functions/types or malformed field references: an unknown function anchor, a
type in the embedded schema unknown to the engine, or an out-of-range field
reference each yield the corresponding error, which the wrapper
propagates. -/
theorem C6_from_substrait_expr_behaviour (p : PyExpr) :
    (∀ e s, consumer.from_substrait_extended_expr_single p.expr = .ok (e, s) →
      PySubstraitConsumer.from_substrait_expr p = .ok { expr := e }) ∧
    (∀ err, consumer.from_substrait_extended_expr_single p.expr = .error err →
      PySubstraitConsumer.from_substrait_expr p = .error err) ∧
    (∀ s fid a b, resolveSchema p.expr.baseSchema = .ok s →
      p.expr.expr = .scalarFn fid a b → fid ≠ 0 →
      PySubstraitConsumer.from_substrait_expr p = .error (.unknownFunction fid)) ∧
    (∀ s i, resolveSchema p.expr.baseSchema = .ok s → p.expr.expr = .fieldRef i →
      s[i]? = none →
      PySubstraitConsumer.from_substrait_expr p = .error (.malformedFieldRef i)) ∧
    (∀ n k, (n, SType.other k) ∈ p.expr.baseSchema →
      ∃ k2, PySubstraitConsumer.from_substrait_expr p = .error (.unknownType k2)) := by
  refine ⟨?_, ?_, ?_, ?_, ?_⟩
  · intro e s h
    simp [PySubstraitConsumer.from_substrait_expr, wait_for_future, h]
  · intro err h
    simp [PySubstraitConsumer.from_substrait_expr, wait_for_future, h]
  · intro s fid a b hres hp hfid
    simp [PySubstraitConsumer.from_substrait_expr, wait_for_future,
      consumer.from_substrait_extended_expr_single, hres, hp, fromSubstraitSub, hfid]
  · intro s i hres hp hi
    simp [PySubstraitConsumer.from_substrait_expr, wait_for_future,
      consumer.from_substrait_extended_expr_single, hres, hp, fromSubstraitSub, hi]
  · intro n k hmem
    obtain ⟨k2, hk2⟩ := resolveSchema_unknownType p.expr.baseSchema n k hmem
    exact ⟨k2, by simp [PySubstraitConsumer.from_substrait_expr, wait_for_future,
      consumer.from_substrait_extended_expr_single, hk2]⟩

/-- Witness for the amended C6: a successful consumption at a concrete
carrier returns exactly the wrapped reconstructed expression. -/
theorem C6_from_substrait_expr_behaviour_witness :
    PySubstraitConsumer.from_substrait_expr { expr := demoProducedExt } =
      .ok { expr := demoExpr } :=
  (C6_from_substrait_expr_behaviour { expr := demoProducedExt }).1 demoExpr demoSchema rfl

/-- C7: for the schema `{a: int, b: int}` and the expression `a + b`,
serializing to bytes, deserializing the bytes into an Expression carrier and
consuming that carrier yields an internal expression structurally equal to
the original. -/
theorem C7_expr_byte_round_trip :
    (match PySubstraitSerializer.serialize_dfexpr_bytes { expr := demoExpr } demoSchema with
      | .ok b =>
        match PySubstraitSerializer.deserialize_expr_bytes b with
        | .ok c => PySubstraitConsumer.from_substrait_expr c
        | .error e => .error e
      | .error e => .error e) = .ok { expr := demoExpr } := rfl

/-- C8: a failed `serialize` (for a planning, conversion, encoding or I/O
reason) returns no carrier and leaves the storage state exactly as it was —
in particular no truncated file at the destination, since writing happens
only after encoding has fully succeeded. -/
theorem C8_failed_serialize_no_side_effect (env : SubstraitEnv) (sql : String)
    (ctx : SessionContext) (path : String) (fs : FileSystem) (e : DfErr)
    (h : (PySubstraitSerializer.serialize env sql ctx path fs).1 = .error e) :
    (PySubstraitSerializer.serialize env sql ctx path fs).2 = fs := by
  simp only [PySubstraitSerializer.serialize, serializer.serialize] at h ⊢
  match henv : env.serializeBytesImpl sql ctx with
  | .ok bytes =>
    simp only [henv] at h ⊢
    match hw : fsWrite fs path bytes with
    | .ok fs2 => simp only [hw, wait_for_future] at h; cases h
    | .error e2 => simp only [hw]
  | .error e2 => simp only [henv]

/-- Witness for C8 at a concrete failing environment. -/
theorem C8_failed_serialize_no_side_effect_witness :
    (PySubstraitSerializer.serialize failEnv ("SELECT") demoCtx ("/tmp/out.bin")
        demoFs).1 = .error (.planning ("malformed sql")) ∧
    (PySubstraitSerializer.serialize failEnv ("SELECT") demoCtx ("/tmp/out.bin")
        demoFs).2 = demoFs :=
  ⟨rfl, C8_failed_serialize_no_side_effect failEnv ("SELECT") demoCtx ("/tmp/out.bin")
    demoFs (.planning ("malformed sql")) rfl⟩

/-- C9: the conversion operations that read a carrier — `PyPlan.encode`,
`from_substrait_plan`, `from_substrait_expr` — leave the carrier, and hence
the message it wraps, unchanged: in the state-threaded embedding of the
borrow semantics each returns the input carrier (and session) untouched. -/
theorem C9_carriers_immutable (p : PyPlan) (ctx : SessionContext) (x : PyExpr) :
    (PyPlan.encodeSt p).2 = p ∧
    (PySubstraitConsumer.from_substrait_planSt ctx p).2.2 = p ∧
    (PySubstraitConsumer.from_substrait_exprSt x).2 = x ∧
    ((PyPlan.encodeSt p).2).plan = p.plan ∧
    ((PySubstraitConsumer.from_substrait_exprSt x).2).expr = x.expr :=
  ⟨rfl, rfl, rfl, rfl, rfl⟩

/-- C10: every interchange expression produced by `to_substrait_expr` is
tagged with the fixed label "datafusion_expression"; the public interface
accepts no caller-supplied label. -/
theorem C10_fixed_expression_label (expr : PyDfExpr) (schema : Schema) (c : PyExpr)
    (h : PySubstraitProducer.to_substrait_expr expr schema = .ok c) :
    c.expr.label = "datafusion_expression" := by
  simp only [PySubstraitProducer.to_substrait_expr,
    producer.to_substrait_extended_expression_single] at h
  match hs : toSubstraitSub schema expr.expr with
  | .ok se => simp only [hs] at h; cases h; rfl
  | .error e => simp only [hs] at h; cases h

/-- Witness for C10 at a concrete expression and schema. -/
theorem C10_fixed_expression_label_witness :
    PySubstraitProducer.to_substrait_expr { expr := demoExpr } demoSchema =
      .ok { expr := demoProducedExt } ∧
    ({ expr := demoProducedExt } : PyExpr).expr.label = "datafusion_expression" :=
  ⟨rfl, C10_fixed_expression_label { expr := demoExpr } demoSchema
    { expr := demoProducedExt } rfl⟩

end Substrait
